import Mathlib

/-!
Verification of populate_swatches.py: a batch tool that extracts square
shingle swatch images from a brochure PDF and sorts them into
swatches/<Series>/<Color>.png (confident) or swatches_raw/ (fallback).

The Python source is embedded shallowly:
  - strings are Lean String (a list of chars), Python floats are modelled
    as rationals,
  - the PDF library's outputs (page text, word boxes, image objects and
    their placement rectangles) are explicit data (Doc, PageData, XrefObj),
  - exceptions raised by the library are modelled as Option-valued fields
    (none = the call raises), and try/except blocks branch on them,
  - filesystem and console effects are recorded as an explicit event trace.
-/

namespace PopulateSwatches

/-! ## Python string primitives used by the script -/

/-- The whitespace class of Python's regexes and str.strip, restricted to
its ASCII members (the script's data is ASCII). -/
def isPyWS (c : Char) : Bool :=
  c = ' ' || c = '\t' || c = '\n' || c = '\r' || c = '\x0b' || c = '\x0c'

/-- Collapse adjacent spaces to one space: the second phase of modelling
re.sub(r"\s+", " ", s), after every whitespace char is mapped to a space. -/
def squeezeSp : List Char → List Char
  | [] => []
  | [c] => [c]
  | a :: b :: rest =>
      if a = ' ' && b = ' ' then squeezeSp (b :: rest) else a :: squeezeSp (b :: rest)

/-- re.sub(r"\s+", " ", s): each maximal whitespace run becomes one space. -/
def subWS (s : List Char) : List Char :=
  squeezeSp (s.map fun c => if isPyWS c then ' ' else c)

/-- Python str.strip(): drop whitespace at both ends. -/
def pyStripChars (s : List Char) : List Char :=
  ((s.dropWhile isPyWS).reverse.dropWhile isPyWS).reverse

/-- Python str.strip() on a String. -/
def pyStrip (s : String) : String :=
  String.mk (pyStripChars s.data)

/-- Python str.lower() (ASCII range; the script's data is ASCII). -/
def pyLower (s : String) : String :=
  String.mk (s.data.map Char.toLower)

/-- Source: norm(s) = re.sub(r"\s+", " ", s or "").strip().lower().
The argument is optional: Python callers may pass None, and `s or ""`
replaces both None and "" by "". -/
def norm (s : Option String) : String :=
  pyLower (String.mk (pyStripChars (subWS (s.getD "").data)))

/-- Bool test: does the char list `needle` occur at the head of `hay`? -/
def listPre : List Char → List Char → Bool
  | [], _ => true
  | _ :: _, [] => false
  | a :: as, b :: bs => a = b && listPre as bs

/-- Bool test: does `needle` occur contiguously anywhere in the list? -/
def listSub (needle : List Char) : List Char → Bool
  | [] => listPre needle []
  | h :: t => listPre needle (h :: t) || listSub needle t

/-- Python's `needle in hay` on strings: contiguous substring test. -/
def strIn (needle hay : String) : Bool :=
  listSub needle.data hay.data

/-! ## The taxonomy (SERIES_COLORS, SERIES_NAMES, ALL_COLOR_LOWER) -/

/-- Source: the SERIES_COLORS dict, as an association list in the source's
insertion order (Python dicts preserve insertion order). -/
def SERIES_COLORS : List (String × List String) :=
  [ ("Timberline HDZ",
      ["Barkwood","Charcoal","Hickory","Hunter Green","Mission Brown","Pewter Gray",
       "Shakewood","Slate","Weathered Wood","Appalachian Sky","Nantucket Morning",
       "Golden Harvest","Cedar Falls","Biscayne Blue","Birchwood","Copper Canyon",
       "Driftwood","Fox Hollow Gray","Golden Amber","Oyster Gray","Patriot Red",
       "Sunset Brick","Williamsburg Slate"]),
    ("Timberline UHDZ", ["Barkwood","Charcoal","Pewter Gray","Shakewood","Slate","Weathered Wood"]),
    ("Timberline NS",   ["Weathered Wood","Barkwood","Charcoal","Pewter Gray","Shakewood","Slate","Hickory"]),
    ("Grand Sequoia",   ["Charcoal","Autumn Brown","Weathered Wood","Cedar Mesa Brown"]),
    ("Camelot II",      ["Weathered Timber","Antique Slate","Charcoal","Barkwood","Royal Slate"]),
    ("Woodland",        ["Cedarwood Abbey","Castlewood Gray"]),
    ("Slateline",       ["Royal Slate","Antique Slate","English Gray","Weathered Slate"]),
    ("Timberline AS II",["Charcoal","Dusky Gray","Weathered Wood","Hickory","Adobe Sunset","Pewter Gray","Barkwood","Shakewood","Slate"]),
    ("Grand Sequoia AS",["Charcoal","Dusky Gray","Weathered Wood"]),
    ("Timberline HDZ RS",["Sagewood","Stone Gray","Hickory","Aged Chestnut","Coastal Slate","Sandalwood","Charcoal"]),
    ("Grand Sequoia RS",["Sandalwood","Ocean Gray","Charcoal","Forest Brown","Sagewood"]),
    ("Royal Sovereign", ["Charcoal","Weathered Gray"]) ]

/-- Source: SERIES_NAMES = list(SERIES_COLORS.keys()). -/
def SERIES_NAMES : List String := SERIES_COLORS.map Prod.fst

/-- Source: ALL_COLOR_LOWER = the lowercased color names of every series
(a Python set; modelled as a list, used only for membership tests). -/
def ALL_COLOR_LOWER : List String :=
  (SERIES_COLORS.flatMap Prod.snd).map pyLower

/-- Python dict .get on the SERIES_COLORS mapping. -/
def dictGet : List (String × List String) → String → Option (List String)
  | [], _ => none
  | (k, v) :: rest, key => if key = k then some v else dictGet rest key

/-! ## detect_series -/

/-- Stable insertion (descending by key) used to model Python's stable
sorted(names, key=k, reverse=True). -/
def insKeyDesc (k : String → Nat) (x : String) : List String → List String
  | [] => [x]
  | y :: ys => if k x < k y then y :: insKeyDesc k x ys else x :: y :: ys

/-- Python's sorted(l, key=k, reverse=True): stable, descending by key. -/
def sortKeyDesc (k : String → Nat) : List String → List String
  | [] => []
  | x :: xs => insKeyDesc k x (sortKeyDesc k xs)

/-- Source: detect_series(text): normalize the page text, then scan the
series names sorted by len descending (Python: sorted(SERIES_NAMES,
key=len, reverse=True)) and return the first whose normalized name is a
substring; None when no name matches. -/
def detect_series (text : String) : Option String :=
  let t := norm (some text)
  (sortKeyDesc String.length SERIES_NAMES).find? fun series => strIn (norm (some series)) t

/-- Modelled from the spec's words (section 4.2), for comparison with
detect_series: iterate the series names ordered by the length of their
normalized form, longest first, and return the first whose normalized name
appears as a substring of the normalized page text. -/
def detectSeriesSpec (text : String) : Option String :=
  let t := norm (some text)
  (sortKeyDesc (fun s => (norm (some s)).length) SERIES_NAMES).find? fun series =>
    strIn (norm (some series)) t

/-! ## is_square_swatch -/

/-- Source: is_square_swatch(pix): reject either dimension below 180,
otherwise accept iff 0.85 <= w/h <= 1.18 (the Python float ratio is
modelled as the exact rational w/h). -/
def is_square_swatch (w h : Nat) : Bool :=
  if w < 180 || h < 180 then false
  else
    let ar : ℚ := (w : ℚ) / (h : ℚ)
    decide ((0.85 : ℚ) ≤ ar) && decide (ar ≤ (1.18 : ℚ))

/-! ## nearest_color_label -/

/-- One entry of page.get_text("words"): a word box (x0, y0, x1, y1) and its
text (the tuple's trailing block/line/word numbers are unused by the code). -/
structure Word where
  x0 : ℚ
  y0 : ℚ
  x1 : ℚ
  y1 : ℚ
  txt : String
deriving DecidableEq

/-- A placement rectangle (fitz.Rect); the code uses x0, y0, width, height,
with width = x1 - x0 and height = y1 - y0. -/
structure Rect where
  x0 : ℚ
  y0 : ℚ
  x1 : ℚ
  y1 : ℚ
deriving DecidableEq

def Rect.width (r : Rect) : ℚ := r.x1 - r.x0

def Rect.height (r : Rect) : ℚ := r.y1 - r.y0

/-- Source: the allowed-vocabulary set of nearest_color_label:
set(map(norm, allowed_colors)) if allowed_colors else ALL_COLOR_LOWER.
A Python list is falsy when empty, so None and the empty list both fall
back to the global set. -/
def resolveAllowed : Option (List String) → List String
  | some (c :: cs) => (c :: cs).map fun s => norm (some s)
  | _ => ALL_COLOR_LOWER

/-- Source: the loop of nearest_color_label, carrying best_text and best_d.
For each word: raw = txt.strip(); if norm(raw) is in the allowed set and
both center offsets are below 260, take the word when its squared distance
beats the best so far (strictly, so the first-seen word wins ties). -/
def nclLoop (allowed : List String) (cx cy : ℚ) :
    List Word → Option String → ℚ → Option String
  | [], best_text, _ => best_text
  | w :: ws, best_text, best_d =>
      let raw := pyStrip w.txt
      let nm := norm (some raw)
      if nm ∈ allowed then
        let wx := (w.x0 + w.x1) / 2
        let wy := (w.y0 + w.y1) / 2
        if |wy - cy| < 260 ∧ |wx - cx| < 260 then
          let d := (wx - cx) ^ 2 + (wy - cy) ^ 2
          if d < best_d then nclLoop allowed cx cy ws (some raw) d
          else nclLoop allowed cx cy ws best_text best_d
        else nclLoop allowed cx cy ws best_text best_d
      else nclLoop allowed cx cy ws best_text best_d

/-- Source: nearest_color_label(words, rect, allowed_colors): None on an
empty word list, else run the loop from best_text = None, best_d = 1e12
around the rectangle's center. -/
def nearest_color_label (words : List Word) (rect : Rect)
    (allowed_colors : Option (List String)) : Option String :=
  if words.isEmpty then none
  else
    let cx := rect.x0 + rect.width / 2
    let cy := rect.y0 + rect.height / 2
    nclLoop (resolveAllowed allowed_colors) cx cy words none (10 ^ 12)

/-- The word's center-to-center squared Euclidean distance from (cx, cy). -/
def wdist (cx cy : ℚ) (w : Word) : ℚ :=
  ((w.x0 + w.x1) / 2 - cx) ^ 2 + ((w.y0 + w.y1) / 2 - cy) ^ 2

/-- A word qualifies when its stripped text normalizes into the allowed
vocabulary and both of its center offsets are strictly below 260. -/
def qualifies (allowed : List String) (cx cy : ℚ) (w : Word) : Bool :=
  decide (norm (some (pyStrip w.txt)) ∈ allowed) &&
    (decide (|(w.y0 + w.y1) / 2 - cy| < 260) && decide (|(w.x0 + w.x1) / 2 - cx| < 260))

/-- One step of the first-seen-minimizer scan: replace the incumbent only
on a strict improvement. -/
def fmStep (f : Word → ℚ) (acc : Option Word) (w : Word) : Option Word :=
  match acc with
  | none => some w
  | some b => if f w < f b then some w else some b

/-- The first-seen minimizer of f: scan left to right, replacing the
incumbent only on a strict improvement. -/
def firstMin (f : Word → ℚ) (ws : List Word) : Option Word :=
  ws.foldl (fmStep f) none

/-- Modelled from the spec's words (section 4.4), for comparison with
nearest_color_label: among the words whose normalized text is in the
allowed vocabulary and whose center offsets are each below 260, return the
stripped original-case text of the one at minimal squared center distance,
ties to the first-seen word; none if no word qualifies. -/
def specNearest (words : List Word) (rect : Rect)
    (allowed_colors : Option (List String)) : Option String :=
  let cx := rect.x0 + rect.width / 2
  let cy := rect.y0 + rect.height / 2
  let allowed := resolveAllowed allowed_colors
  (firstMin (wdist cx cy) (words.filter (qualifies allowed cx cy))).map
    fun w => pyStrip w.txt

/-! ## The extraction driver (main) -/

/-- A decoded image object (fitz.Pixmap): pixel width, height and channel
count n. rgbConvertFails models whether the library call
fitz.Pixmap(fitz.csRGB, pix) would raise for this image, which the code
catches to fall back on the channel-drop conversion fitz.Pixmap(pix, 0). -/
structure Pix where
  width : Nat
  height : Nat
  n : Nat
  rgbConvertFails : Bool
deriving DecidableEq

/-- What pixel data a save wrote: converted to RGB, converted by the
best-effort channel drop, or written as is. -/
inductive Saved where
  | rgb (p : Pix)
  | dropped (p : Pix)
  | unconverted (p : Pix)
deriving DecidableEq

/-- Source: save_pixmap(pix, out_path): when the channel count is at least
4, convert to RGB, falling back to the channel-drop conversion when that
raises; below 4, save the pixmap untouched. -/
def save_pixmap (pix : Pix) : Saved :=
  if 4 ≤ pix.n then
    if pix.rgbConvertFails then Saved.dropped pix else Saved.rgb pix
  else Saved.unconverted pix

/-- Python's f"{pidx:02d}": decimal digits, left-padded with 0 to width 2. -/
def pad2 (n : Nat) : String :=
  if n < 10 then "0" ++ Nat.repr n else Nat.repr n

/-- The two output-path shapes of the script, kept structured on the event
trace; render gives the exact path string the script builds. -/
inductive OutPath where
  | confident (series color : String)
  | fallback (pidx xref w h : Nat)
deriving DecidableEq

/-- The path string os.path.join builds for each decision. -/
def OutPath.render : OutPath → String
  | OutPath.confident series color => "swatches/" ++ series ++ "/" ++ color ++ ".png"
  | OutPath.fallback pidx xref w h =>
      "swatches_raw/page" ++ pad2 pidx ++ "_xref" ++ Nat.repr xref ++
        "_w" ++ Nat.repr w ++ "_h" ++ Nat.repr h ++ ".png"

/-- One observable effect of the run: a directory creation, a pixmap decode
attempt (with its outcome), a file write, the final summary line, another
console line, or a process exit. -/
inductive Event where
  | mkdir (path : String)
  | decode (xref : Nat) (ok : Bool)
  | save (path : OutPath) (content : Saved)
  | summary (swatches raw : Nat)
  | consoleOut (msg : String)
  | exitc (code : Nat)
deriving DecidableEq

/-- Driver state: the event trace so far, saved_swatches, saved_raw. -/
abbrev St : Type := List Event × Nat × Nat

/-- The words of a page (page.get_text("words")) and its text
(page.get_text()), cached once per page by the driver. -/
structure PageData where
  text : String
  words : List Word
deriving DecidableEq

/-- One entry of the document's xref table: its reference id, the result of
reading its /Subtype key (none = the read raises), the result of decoding
its pixel data (none = fitz.Pixmap raises), and its placement rectangles
on each page (index = page index). -/
structure XrefObj where
  id : Nat
  subtype : Option String
  pixmap : Option Pix
  placements : List (List Rect)
deriving DecidableEq

/-- The opened document: its pages and its xref table. -/
structure Doc where
  pages : List PageData
  xrefs : List XrefObj
deriving DecidableEq

/-- Source: allowed_colors = SERIES_COLORS.get(series_hint) if series_hint
else None. A Python str is falsy when empty, so some "" also yields None
(unreachable from detect_series, whose results are the nonempty names). -/
def pyAllowed : Option String → Option (List String)
  | some h => if h = "" then none else dictGet SERIES_COLORS h
  | none => none

/-- Source: the body of the for-rect loop of main: geometry filter, color
lookup, path decision (Python truthiness: an empty series or color string
would count as missing), directory creation, save, counter update. -/
def processRect (pidx xid : Nat) (pix : Pix) (seriesHint : Option String)
    (words : List Word) (acc : St) (rect : Rect) : St :=
  if is_square_swatch pix.width pix.height then
    let color_guess := nearest_color_label words rect (pyAllowed seriesHint)
    let evs := acc.1
    let s := acc.2.1
    let r := acc.2.2
    let fb : St :=
      (evs ++ [Event.save (OutPath.fallback pidx xid pix.width pix.height) (save_pixmap pix)],
        s, r + 1)
    match seriesHint, color_guess with
    | some sh, some c =>
        if sh = "" || c = "" then fb
        else
          (evs ++ [Event.mkdir ("swatches/" ++ sh),
              Event.save (OutPath.confident sh c) (save_pixmap pix)],
            s + 1, r)
    | _, _ => fb
  else acc

/-- Source: the body of the for-pidx loop of main for one xref: fetch the
placement rectangles on that page, skip when there are none, else detect
the page's series, attempt the pixmap decode (skip the page's placements
when it raises), and process each rectangle. -/
def processPage (pages : List PageData) (x : XrefObj) (acc : St) (pidx : Nat) : St :=
  let rects := x.placements.getD pidx []
  if rects.isEmpty then acc
  else
    let page := pages.getD pidx (PageData.mk "" [])
    let seriesHint := detect_series page.text
    let words := page.words
    let evs2 := acc.1 ++ [Event.decode x.id x.pixmap.isSome]
    match x.pixmap with
    | none => (evs2, acc.2.1, acc.2.2)
    | some pix => rects.foldl (processRect pidx x.id pix seriesHint words) (evs2, acc.2.1, acc.2.2)

/-- Source: the body of the for-xref loop of main: skip the object when the
/Subtype read raises or the subtype does not mention /Image, else walk
every page. -/
def processXref (pages : List PageData) (x : XrefObj) (acc : St) : St :=
  match x.subtype with
  | none => acc
  | some st =>
      if strIn "/Image" st then (List.range pages.length).foldl (processPage pages x) acc
      else acc

/-- Source: the processing in main after the existence check: create the
two output roots, then walk the xref table. -/
def run (doc : Doc) : St :=
  doc.xrefs.foldl (fun acc x => processXref doc.pages x acc)
    ([Event.mkdir "swatches", Event.mkdir "swatches_raw"], 0, 0)

/-- The diagnostic main prints before exiting when the PDF is missing. -/
def missingMsg : String :=
  "ERROR: assets/brochure.pdf not found. Upload your brochure PDF to assets/brochure.pdf and re-run."

/-- The closing hint main prints after the summary. -/
def hintMsg : String :=
  "If any color is mis-labeled, rename the file in swatches/<Series>/ to the exact color text used in index.html."

/-- Source: main(): none models a missing input file (os.path.exists is
false): report and exit 1 with no other effect. Otherwise run the
extraction and report the two counters. -/
def main : Option Doc → List Event
  | none => [Event.consoleOut missingMsg, Event.exitc 1]
  | some doc =>
      let st := run doc
      st.1 ++ [Event.summary st.2.1 st.2.2, Event.consoleOut hintMsg]

/-! ## Event classifiers -/

def isConfSave : Event → Bool
  | Event.save (OutPath.confident _ _) _ => true
  | _ => false

def isFallSave : Event → Bool
  | Event.save (OutPath.fallback _ _ _ _) _ => true
  | _ => false

def isSaveEv : Event → Bool
  | Event.save _ _ => true
  | _ => false

def isDecodeEv : Event → Bool
  | Event.decode _ _ => true
  | _ => false

def isSummaryEv : Event → Bool
  | Event.summary _ _ => true
  | _ => false

def isMkdirEv : Event → Bool
  | Event.mkdir _ => true
  | _ => false

/-- The driver's gate on an xref entry: its /Subtype read must succeed and
mention /Image. -/
def imageGate (x : XrefObj) : Bool :=
  match x.subtype with
  | none => false
  | some st => strIn "/Image" st

/-- The two counters always equal the counts of confident and fallback save
events on the trace, and the trace holds no summary event. -/
def InvCnt (st : St) : Prop :=
  st.2.1 = st.1.countP isConfSave ∧ st.2.2 = st.1.countP isFallSave ∧
    st.1.countP isSummaryEv = 0

/-! ## General helper lemmas -/

theorem foldl_pres {α σ : Type} (P : σ → Prop) (f : σ → α → σ)
    (hf : ∀ s a, P s → P (f s a)) : ∀ (l : List α) (s : σ), P s → P (l.foldl f s) := by
  intro l
  induction l with
  | nil => intro s hs; exact hs
  | cons a t ih => intro s hs; exact ih (f s a) (hf s a hs)

theorem findNeOfEarly {α : Type} [DecidableEq α] (p : α → Bool) (l1 : List α) (a : α)
    (l2 : List α) (b : α) (hpa : p a = true) (hb1 : b ∉ l1) (hba : b ≠ a) :
    List.find? p (l1 ++ a :: l2) ≠ some b := by
  induction l1 with
  | nil =>
      simp only [List.nil_append, List.find?, hpa]
      intro h
      exact hba (Option.some.inj h).symm
  | cons c t ih =>
      simp only [List.cons_append, List.find?]
      cases hc : p c with
      | true =>
          intro h
          apply hb1
          rw [Option.some.inj h]
          exact List.mem_cons_self b t
      | false =>
          exact ih fun hm => hb1 (List.mem_cons_of_mem c hm)

/-! ## C10: the normalizer is total on absent text -/

/-- C10: norm is total on missing input: applied to None it returns the
empty string (the same value it gives the empty string), so the callers
that normalize possibly-absent text never fail. -/
theorem C10_norm_none_empty : norm none = "" ∧ norm none = norm (some "") :=
  ⟨rfl, rfl⟩

/-! ## C2: the geometry filter -/

/-- C2: is_square_swatch accepts exactly the dimensions with both sides at
least 180 and rational aspect ratio w/h inside [0.85, 1.18]; the bounds are
inclusive (187/220 = 0.85 and 236/200 = 1.18 are accepted), and either a
small side or an out-of-band ratio (e.g. 2:1) is rejected. -/
theorem C2_geometry_filter :
    (∀ w h : Nat, is_square_swatch w h = true ↔
      180 ≤ w ∧ 180 ≤ h ∧ (0.85 : ℚ) ≤ (w : ℚ) / (h : ℚ) ∧ (w : ℚ) / (h : ℚ) ≤ (1.18 : ℚ)) ∧
    is_square_swatch 187 220 = true ∧
    is_square_swatch 236 200 = true ∧
    is_square_swatch 179 250 = false ∧
    is_square_swatch 250 179 = false ∧
    is_square_swatch 400 200 = false := by
  refine ⟨?_, ?_, ?_, ?_, ?_, ?_⟩
  · intro w h
    unfold is_square_swatch
    by_cases hc : (decide (w < 180) || decide (h < 180)) = true
    · rw [if_pos hc]
      simp only [Bool.or_eq_true, decide_eq_true_eq] at hc
      simp only [Bool.false_eq_true, false_iff, not_and]
      intro h1 h2
      exact absurd hc (by omega)
    · rw [if_neg hc]
      simp only [Bool.or_eq_true, decide_eq_true_eq, not_or, not_lt] at hc
      simp only [Bool.and_eq_true, decide_eq_true_eq]
      exact ⟨fun ha => ⟨hc.1, hc.2, ha.1, ha.2⟩, fun ha => ⟨ha.2.2.1, ha.2.2.2⟩⟩
  · simp [is_square_swatch]
    norm_num
  · simp [is_square_swatch]
    norm_num
  · simp [is_square_swatch]
  · simp [is_square_swatch]
  · simp [is_square_swatch]
    norm_num

/-! ## C6: missing input file -/

/-- C6: on a missing input document main reports the diagnostic and exits
with status 1, creating no directory and writing no file. -/
theorem C6_missing_input :
    main none = [Event.consoleOut missingMsg, Event.exitc 1] ∧
    (main none).countP isMkdirEv = 0 ∧
    (main none).countP isSaveEv = 0 ∧
    (main none).countP (fun e => match e with
      | Event.exitc c => decide (c ≠ 0)
      | _ => false) = 1 := by
  decide

/-! ## C8: channel conversion on save -/

/-- C8: save_pixmap converts a pixmap with at least 4 channels to RGB,
falls back to the channel-drop conversion when the RGB conversion raises
(the save always proceeds), and writes a pixmap with fewer than 4 channels
unconverted. -/
theorem C8_save_conversion : ∀ pix : Pix,
    (4 ≤ pix.n → pix.rgbConvertFails = false → save_pixmap pix = Saved.rgb pix) ∧
    (4 ≤ pix.n → pix.rgbConvertFails = true → save_pixmap pix = Saved.dropped pix) ∧
    (pix.n < 4 → save_pixmap pix = Saved.unconverted pix) := by
  intro pix
  refine ⟨?_, ?_, ?_⟩
  · intro hn hf
    unfold save_pixmap
    rw [if_pos hn, hf]
    rfl
  · intro hn hf
    unfold save_pixmap
    rw [if_pos hn, hf]
    rfl
  · intro hn
    unfold save_pixmap
    rw [if_neg (by omega)]

/-! ## Driver shape lemmas -/

/-- Each rectangle is either skipped by the geometry filter, saved on the
confident path (one mkdir, one confident save, saved_swatches + 1), or
saved on the fallback path (one fallback save, saved_raw + 1). -/
theorem processRect_cases (pidx xid : Nat) (pix : Pix) (seriesHint : Option String)
    (words : List Word) (acc : St) (rect : Rect) :
    processRect pidx xid pix seriesHint words acc rect = acc ∨
    (∃ sh c, processRect pidx xid pix seriesHint words acc rect =
        (acc.1 ++ [Event.mkdir ("swatches/" ++ sh),
          Event.save (OutPath.confident sh c) (save_pixmap pix)], acc.2.1 + 1, acc.2.2)) ∨
    processRect pidx xid pix seriesHint words acc rect =
        (acc.1 ++ [Event.save (OutPath.fallback pidx xid pix.width pix.height) (save_pixmap pix)],
          acc.2.1, acc.2.2 + 1) := by
  unfold processRect
  by_cases hsq : is_square_swatch pix.width pix.height = true
  · rw [if_pos hsq]
    rcases seriesHint with _ | sh
    · right; right; rfl
    · rcases hcg : nearest_color_label words rect (pyAllowed (some sh)) with _ | c
      · right; right
        simp [hcg]
      · by_cases hem : (decide (sh = "") || decide (c = "")) = true
        · right; right
          simp only [hcg]
          rw [if_pos hem]
        · right; left
          refine ⟨sh, c, ?_⟩
          simp only [hcg]
          rw [if_neg hem]
  · rw [if_neg hsq]
    left
    rfl

/-- The per-rect step never emits a decode event. -/
theorem processRect_countP_decode (pidx xid : Nat) (pix : Pix) (seriesHint : Option String)
    (words : List Word) (acc : St) (rect : Rect) :
    (processRect pidx xid pix seriesHint words acc rect).1.countP isDecodeEv =
      acc.1.countP isDecodeEv := by
  rcases processRect_cases pidx xid pix seriesHint words acc rect with h | ⟨sh, c, h⟩ | h <;>
    rw [h] <;>
    simp [List.countP_append, List.countP_cons, isDecodeEv]

/-- The per-page step decodes exactly once when the page holds placements
of the object and not at all otherwise. -/
theorem processPage_countP_decode (pages : List PageData) (x : XrefObj) (acc : St) (pidx : Nat) :
    (processPage pages x acc pidx).1.countP isDecodeEv =
      acc.1.countP isDecodeEv + (if (x.placements.getD pidx []).isEmpty then 0 else 1) := by
  unfold processPage
  by_cases he : (x.placements.getD pidx []).isEmpty = true
  · rw [if_pos he, if_pos he]
    omega
  · rw [if_neg he, if_neg he]
    rcases hpm : x.pixmap with _ | pix
    · simp only [hpm]
      simp [List.countP_append, List.countP_cons, isDecodeEv]
    · simp only [hpm]
      have hbase : ((acc.1 ++ [Event.decode x.id (some pix).isSome], acc.2.1, acc.2.2) : St).1.countP
          isDecodeEv = acc.1.countP isDecodeEv + 1 := by
        simp [List.countP_append, List.countP_cons, isDecodeEv]
      have hstep : ∀ (st : St) (rect : Rect),
          st.1.countP isDecodeEv = acc.1.countP isDecodeEv + 1 →
          (processRect pidx x.id pix
            (detect_series (pages.getD pidx (PageData.mk "" [])).text)
            (pages.getD pidx (PageData.mk "" [])).words st rect).1.countP isDecodeEv =
            acc.1.countP isDecodeEv + 1 := by
        intro st rect hst
        rw [processRect_countP_decode]
        exact hst
      exact foldl_pres (fun st : St => st.1.countP isDecodeEv = acc.1.countP isDecodeEv + 1)
        _ hstep _ _ hbase

/-- Folding the per-page step over a list of page indices adds one decode
per index holding placements. -/
theorem foldl_processPage_countP_decode (pages : List PageData) (x : XrefObj) :
    ∀ (idxs : List Nat) (acc : St),
      ((idxs.foldl (processPage pages x) acc)).1.countP isDecodeEv =
        acc.1.countP isDecodeEv +
          idxs.countP fun i => !(x.placements.getD i []).isEmpty := by
  intro idxs
  induction idxs with
  | nil => intro acc; simp
  | cons i t ih =>
      intro acc
      rw [List.foldl_cons, ih, processPage_countP_decode, List.countP_cons]
      by_cases he : (x.placements.getD i []).isEmpty = true <;> simp [he] <;> omega

/-! ## The per-placement counter invariant (claim C5) -/

theorem invCnt_processRect (pidx xid : Nat) (pix : Pix) (seriesHint : Option String)
    (words : List Word) (acc : St) (rect : Rect) (h : InvCnt acc) :
    InvCnt (processRect pidx xid pix seriesHint words acc rect) := by
  obtain ⟨h1, h2, h3⟩ := h
  rcases processRect_cases pidx xid pix seriesHint words acc rect with hc | ⟨sh, c, hc⟩ | hc <;>
    rw [hc] <;>
    exact ⟨by simp [List.countP_append, List.countP_cons, isConfSave, h1],
      by simp [List.countP_append, List.countP_cons, isFallSave, h2],
      by simp [List.countP_append, List.countP_cons, isSummaryEv, h3]⟩

theorem invCnt_processPage (pages : List PageData) (x : XrefObj) (acc : St) (pidx : Nat)
    (h : InvCnt acc) : InvCnt (processPage pages x acc pidx) := by
  obtain ⟨h1, h2, h3⟩ := h
  unfold processPage
  by_cases he : (x.placements.getD pidx []).isEmpty = true
  · rw [if_pos he]
    exact ⟨h1, h2, h3⟩
  · rw [if_neg he]
    have hbase : InvCnt (acc.1 ++ [Event.decode x.id x.pixmap.isSome], acc.2.1, acc.2.2) :=
      ⟨by simp [List.countP_append, List.countP_cons, isConfSave, h1],
        by simp [List.countP_append, List.countP_cons, isFallSave, h2],
        by simp [List.countP_append, List.countP_cons, isSummaryEv, h3]⟩
    rcases hpm : x.pixmap with _ | pix
    · simp only [hpm]
      exact ⟨by simp [List.countP_append, List.countP_cons, isConfSave, h1],
        by simp [List.countP_append, List.countP_cons, isFallSave, h2],
        by simp [List.countP_append, List.countP_cons, isSummaryEv, h3]⟩
    · simp only [hpm]
      have hbase : InvCnt
          ((acc.1 ++ [Event.decode x.id (some pix).isSome], acc.2.1, acc.2.2) : St) :=
        ⟨by simp [List.countP_append, List.countP_cons, isConfSave, h1],
          by simp [List.countP_append, List.countP_cons, isFallSave, h2],
          by simp [List.countP_append, List.countP_cons, isSummaryEv, h3]⟩
      exact foldl_pres InvCnt _
        (fun st rect hst => invCnt_processRect pidx x.id pix _ _ st rect hst) _ _ hbase

theorem invCnt_processXref (pages : List PageData) (x : XrefObj) (acc : St)
    (h : InvCnt acc) : InvCnt (processXref pages x acc) := by
  unfold processXref
  rcases hsub : x.subtype with _ | s2
  · exact h
  · show InvCnt (if strIn "/Image" s2 = true then
      (List.range pages.length).foldl (processPage pages x) acc else acc)
    by_cases hst : strIn "/Image" s2 = true
    · rw [if_pos hst]
      exact foldl_pres InvCnt _
        (fun st2 pidx hst2 => invCnt_processPage pages x st2 pidx hst2) _ _ h
    · rw [if_neg hst]
      exact h

theorem invCnt_run (doc : Doc) : InvCnt (run doc) := by
  unfold run
  exact foldl_pres InvCnt _
    (fun st x hst => invCnt_processXref doc.pages x st hst) _ _
    ⟨by decide, by decide, by decide⟩

/-! Constructor-level values of the event classifiers, for simp. -/

@[simp] theorem isSaveEv_save (p : OutPath) (c : Saved) : isSaveEv (Event.save p c) = true := rfl

@[simp] theorem isSaveEv_mkdir (p : String) : isSaveEv (Event.mkdir p) = false := rfl

@[simp] theorem isSaveEv_decode (i : Nat) (b : Bool) : isSaveEv (Event.decode i b) = false := rfl

@[simp] theorem isSaveEv_summary (a b : Nat) : isSaveEv (Event.summary a b) = false := rfl

@[simp] theorem isSaveEv_consoleOut (m : String) : isSaveEv (Event.consoleOut m) = false := rfl

@[simp] theorem isSaveEv_exitc (c : Nat) : isSaveEv (Event.exitc c) = false := rfl

@[simp] theorem isConfSave_conf (sh c : String) (ct : Saved) :
    isConfSave (Event.save (OutPath.confident sh c) ct) = true := rfl

@[simp] theorem isConfSave_fall (i j w h : Nat) (ct : Saved) :
    isConfSave (Event.save (OutPath.fallback i j w h) ct) = false := rfl

@[simp] theorem isConfSave_mkdir (p : String) : isConfSave (Event.mkdir p) = false := rfl

@[simp] theorem isConfSave_decode (i : Nat) (b : Bool) :
    isConfSave (Event.decode i b) = false := rfl

@[simp] theorem isConfSave_summary (a b : Nat) : isConfSave (Event.summary a b) = false := rfl

@[simp] theorem isConfSave_consoleOut (m : String) :
    isConfSave (Event.consoleOut m) = false := rfl

@[simp] theorem isConfSave_exitc (c : Nat) : isConfSave (Event.exitc c) = false := rfl

@[simp] theorem isFallSave_conf (sh c : String) (ct : Saved) :
    isFallSave (Event.save (OutPath.confident sh c) ct) = false := rfl

@[simp] theorem isFallSave_fall (i j w h : Nat) (ct : Saved) :
    isFallSave (Event.save (OutPath.fallback i j w h) ct) = true := rfl

@[simp] theorem isFallSave_mkdir (p : String) : isFallSave (Event.mkdir p) = false := rfl

@[simp] theorem isFallSave_decode (i : Nat) (b : Bool) :
    isFallSave (Event.decode i b) = false := rfl

@[simp] theorem isFallSave_summary (a b : Nat) : isFallSave (Event.summary a b) = false := rfl

@[simp] theorem isFallSave_consoleOut (m : String) :
    isFallSave (Event.consoleOut m) = false := rfl

@[simp] theorem isFallSave_exitc (c : Nat) : isFallSave (Event.exitc c) = false := rfl

@[simp] theorem isSummaryEv_summary (a b : Nat) : isSummaryEv (Event.summary a b) = true := rfl

@[simp] theorem isSummaryEv_save (p : OutPath) (c : Saved) :
    isSummaryEv (Event.save p c) = false := rfl

@[simp] theorem isSummaryEv_mkdir (p : String) : isSummaryEv (Event.mkdir p) = false := rfl

@[simp] theorem isSummaryEv_decode (i : Nat) (b : Bool) :
    isSummaryEv (Event.decode i b) = false := rfl

@[simp] theorem isSummaryEv_consoleOut (m : String) :
    isSummaryEv (Event.consoleOut m) = false := rfl

@[simp] theorem isSummaryEv_exitc (c : Nat) : isSummaryEv (Event.exitc c) = false := rfl

/-- Save events split into confident and fallback saves. -/
theorem countP_save_split (evs : List Event) :
    evs.countP isSaveEv = evs.countP isConfSave + evs.countP isFallSave := by
  induction evs with
  | nil => rfl
  | cons e t ih =>
      rw [List.countP_cons, List.countP_cons, List.countP_cons, ih]
      rcases e with p | ⟨xr, ok⟩ | ⟨pth, ct⟩ | ⟨a, b⟩ | m | c
      · simp
      · simp
      · rcases pth with ⟨sh, cl⟩ | ⟨i, j, w, h⟩ <;> simp <;> omega
      · simp
      · simp
      · simp

/-! ## C7: recoverable per-object failures -/

/-- C7: an object whose /Subtype read raises is skipped whole (the state is
untouched), and an object whose pixel decode raises contributes only decode
events: the earlier trace is preserved as a prefix, no file is written for
it, and both counters are unchanged. -/
theorem C7_recoverable_skips :
    (∀ (pages : List PageData) (x : XrefObj) (acc : St),
      x.subtype = none → processXref pages x acc = acc) ∧
    (∀ (pages : List PageData) (x : XrefObj) (evs : List Event) (s r : Nat),
      x.pixmap = none →
      ∃ d, processXref pages x (evs, s, r) = (evs ++ d, s, r) ∧
        ∀ e ∈ d, isDecodeEv e = true) := by
  constructor
  · intro pages x acc hsub
    unfold processXref
    rw [hsub]
  · intro pages x evs s r hpm
    have hstep : ∀ (st : St) (pidx : Nat),
        (∃ d, st = (evs ++ d, s, r) ∧ ∀ e ∈ d, isDecodeEv e = true) →
        ∃ d, processPage pages x st pidx = (evs ++ d, s, r) ∧
          ∀ e ∈ d, isDecodeEv e = true := by
      intro st pidx hP
      obtain ⟨d, hd, hall⟩ := hP
      subst hd
      unfold processPage
      by_cases he : (x.placements.getD pidx []).isEmpty = true
      · rw [if_pos he]
        exact ⟨d, rfl, hall⟩
      · rw [if_neg he]
        rw [hpm]
        refine ⟨d ++ [Event.decode x.id (none : Option Pix).isSome], ?_, ?_⟩
        · simp
        · intro e he2
          rcases List.mem_append.mp he2 with h1 | h1
          · exact hall e h1
          · simp only [List.mem_singleton] at h1
            subst h1
            rfl
    unfold processXref
    rcases hsub : x.subtype with _ | s2
    · exact ⟨[], by simp, by simp⟩
    · show ∃ d,
        (if strIn "/Image" s2 = true then
          (List.range pages.length).foldl (processPage pages x) (evs, s, r)
        else (evs, s, r)) = (evs ++ d, s, r) ∧ ∀ e ∈ d, isDecodeEv e = true
      by_cases hst : strIn "/Image" s2 = true
      · rw [if_pos hst]
        exact foldl_pres
          (fun st : St => ∃ d, st = (evs ++ d, s, r) ∧ ∀ e ∈ d, isDecodeEv e = true)
          _ hstep _ _ ⟨[], by simp, by simp⟩
      · rw [if_neg hst]
        exact ⟨[], by simp, by simp⟩

/-! ## C9: decode count per object -/

/-- C9 (amended): processing one image object that passes the subtype gate
decodes its pixel data once per page on which it has placements — the
decoded pixmap is reused across that page's rectangles — so an object
placed on several pages is decoded once per such page, and an object
skipped by the gate is never decoded. -/
theorem C9_decode_per_page :
    ∀ (pages : List PageData) (x : XrefObj) (evs : List Event) (s r : Nat),
      (processXref pages x (evs, s, r)).1.countP isDecodeEv =
        evs.countP isDecodeEv +
          (if imageGate x then
            (List.range pages.length).countP fun i => !(x.placements.getD i []).isEmpty
          else 0) := by
  intro pages x evs s r
  unfold processXref imageGate
  rcases hsub : x.subtype with _ | s2
  · simp
  · show (if strIn "/Image" s2 = true then
        (List.range pages.length).foldl (processPage pages x) (evs, s, r)
      else (evs, s, r)).1.countP isDecodeEv = _
    by_cases hst : strIn "/Image" s2 = true
    · rw [if_pos hst]
      rw [foldl_processPage_countP_decode]
      simp [hst]
    · rw [if_neg hst]
      simp [hst]

/-! ## C5: the reported counts -/

/-- C5: every run's trace carries exactly one summary event, its two
numbers equal the counts of confident-path and fallback-path file writes
performed during the run, and they sum to the total number of files
written. -/
theorem C5_summary_counts : ∀ doc : Doc,
    (∃ s r, Event.summary s r ∈ main (some doc)) ∧
    ∀ s r, Event.summary s r ∈ main (some doc) →
      s = (main (some doc)).countP isConfSave ∧
      r = (main (some doc)).countP isFallSave ∧
      s + r = (main (some doc)).countP isSaveEv := by
  intro doc
  obtain ⟨h1, h2, h3⟩ := invCnt_run doc
  have hmain : main (some doc) =
      (run doc).1 ++ [Event.summary (run doc).2.1 (run doc).2.2, Event.consoleOut hintMsg] :=
    rfl
  have hnotin : ∀ a b : Nat, Event.summary a b ∉ (run doc).1 := by
    intro a b hmem
    have := (List.countP_eq_zero.mp h3) _ hmem
    simp at this
  have hcountc : (main (some doc)).countP isConfSave = (run doc).2.1 := by
    rw [hmain, List.countP_append, h1]
    simp
  have hcountf : (main (some doc)).countP isFallSave = (run doc).2.2 := by
    rw [hmain, List.countP_append, h2]
    simp
  constructor
  · refine ⟨(run doc).2.1, (run doc).2.2, ?_⟩
    rw [hmain]
    exact List.mem_append_right _ (List.mem_cons_self _ _)
  · intro s r hmem
    rw [hmain] at hmem
    rcases List.mem_append.mp hmem with hin | hin
    · exact absurd hin (hnotin s r)
    · have hsr : s = (run doc).2.1 ∧ r = (run doc).2.2 := by
        rcases List.mem_cons.mp hin with heq | hin2
        · exact ⟨(Event.summary.injEq _ _ _ _ ▸ heq).1
            , (Event.summary.injEq _ _ _ _ ▸ heq).2⟩
        · simp at hin2
      refine ⟨?_, ?_, ?_⟩
      · rw [hcountc, hsr.1]
      · rw [hcountf, hsr.2]
      · rw [countP_save_split, hcountc, hcountf, hsr.1, hsr.2]

/-! ## C1: detect_series -/

/-- detect_series cannot return b when a matching name a sits no later in
the scanned order and differs from b. -/
theorem detect_ne_of_hit (text : String) (l1 : List String) (a : String)
    (l2 : List String) (b : String)
    (hdecomp : sortKeyDesc String.length SERIES_NAMES = l1 ++ a :: l2)
    (hp : strIn (norm (some a)) (norm (some text)) = true)
    (hb : b ∉ l1) (hba : b ≠ a) : detect_series text ≠ some b := by
  show (sortKeyDesc String.length SERIES_NAMES).find?
      (fun series => strIn (norm (some series)) (norm (some text))) ≠ some b
  rw [hdecomp]
  exact findNeOfEarly _ l1 a l2 b hp hb hba

/-- C1 (amended): when normalized(S1) is a substring of normalized(S2) and
S2 is the longer name, a page text containing S2's name (so that
normalized(S2) occurs in the normalized text) never yields S1 — though it
can yield a third, longer match rather than S2 itself; in general
detect_series equals the spec's description (first series in the
longest-normalized-first order whose normalized name occurs in the
normalized page text), and it returns none exactly when no series name
matches. -/
theorem C1_detect_series :
    (∀ S1 S2 text : String, S1 ∈ SERIES_NAMES → S2 ∈ SERIES_NAMES →
      strIn (norm (some S1)) (norm (some S2)) = true →
      S1.length < S2.length →
      strIn (norm (some S2)) (norm (some text)) = true →
      detect_series text ≠ some S1) ∧
    (∀ text : String, detect_series text = detectSeriesSpec text) ∧
    (∀ text : String, detect_series text = none ↔
      ∀ s ∈ SERIES_NAMES, strIn (norm (some s)) (norm (some text)) = false) := by
  refine ⟨?_, ?_, ?_⟩
  · intro S1 S2 text h1 h2 hsub hlen hsub2
    simp only [SERIES_NAMES, SERIES_COLORS, List.map, List.mem_cons,
      List.not_mem_nil, or_false] at h1 h2
    rcases h1 with rfl | rfl | rfl | rfl | rfl | rfl | rfl | rfl | rfl | rfl | rfl | rfl <;>
      rcases h2 with rfl | rfl | rfl | rfl | rfl | rfl | rfl | rfl | rfl | rfl | rfl | rfl <;>
      first
      | exact absurd hsub (by decide)
      | exact absurd hlen (by decide)
      | exact detect_ne_of_hit text [] "Timberline HDZ RS"
          ["Timberline AS II","Grand Sequoia AS","Grand Sequoia RS","Timberline UHDZ",
           "Royal Sovereign","Timberline HDZ","Timberline NS","Grand Sequoia","Camelot II",
           "Slateline","Woodland"] _ (by decide) hsub2 (by decide) (by decide)
      | exact detect_ne_of_hit text ["Timberline HDZ RS","Timberline AS II"]
          "Grand Sequoia AS"
          ["Grand Sequoia RS","Timberline UHDZ","Royal Sovereign","Timberline HDZ",
           "Timberline NS","Grand Sequoia","Camelot II","Slateline","Woodland"]
          _ (by decide) hsub2 (by decide) (by decide)
      | exact detect_ne_of_hit text
          ["Timberline HDZ RS","Timberline AS II","Grand Sequoia AS"]
          "Grand Sequoia RS"
          ["Timberline UHDZ","Royal Sovereign","Timberline HDZ","Timberline NS",
           "Grand Sequoia","Camelot II","Slateline","Woodland"]
          _ (by decide) hsub2 (by decide) (by decide)
  · intro text
    show (sortKeyDesc String.length SERIES_NAMES).find?
        (fun series => strIn (norm (some series)) (norm (some text))) =
      (sortKeyDesc (fun s => (norm (some s)).length) SERIES_NAMES).find?
        (fun series => strIn (norm (some series)) (norm (some text)))
    rw [show sortKeyDesc String.length SERIES_NAMES =
      sortKeyDesc (fun s => (norm (some s)).length) SERIES_NAMES from by decide]
  · intro text
    show (sortKeyDesc String.length SERIES_NAMES).find?
        (fun series => strIn (norm (some series)) (norm (some text))) = none ↔ _
    rw [List.find?_eq_none]
    have hperm : List.Perm (sortKeyDesc String.length SERIES_NAMES) SERIES_NAMES := by
      decide
    constructor
    · intro h s hs
      have := h s (hperm.mem_iff.mpr hs)
      simpa using this
    · intro h s hs
      have := h s (hperm.mem_iff.mp hs)
      simp [this]

/-- C1 counterexample to the claim as stated: "Grand Sequoia" normalizes to
a substring of the longer "Grand Sequoia AS", and this page text contains
"Grand Sequoia AS" in full, yet detect_series returns neither S2 = "Grand
Sequoia AS" nor S1: the still-longer "Timberline HDZ RS" also occurs and
wins. -/
theorem C1_counterexample :
    "Grand Sequoia" ∈ SERIES_NAMES ∧
    "Grand Sequoia AS" ∈ SERIES_NAMES ∧
    strIn (norm (some "Grand Sequoia")) (norm (some "Grand Sequoia AS")) = true ∧
    ("Grand Sequoia").length < ("Grand Sequoia AS").length ∧
    strIn (norm (some "Grand Sequoia AS"))
      (norm (some "Grand Sequoia AS and Timberline HDZ RS shingles")) = true ∧
    detect_series "Grand Sequoia AS and Timberline HDZ RS shingles" =
      some "Timberline HDZ RS" := by
  decide

/-! ## C3: the color locator agrees with its argmin description -/

/-- Elements at least as far as the current incumbent can be dropped from a
first-min scan. -/
theorem fmStep_foldl_filter (f : Word → ℚ) :
    ∀ (l : List Word) (b c : Word), f b ≤ f c →
      l.foldl (fmStep f) (some b) =
        (l.filter fun v => decide (f v < f c)).foldl (fmStep f) (some b) := by
  intro l
  induction l with
  | nil => intro b c _; rfl
  | cons v t ih =>
      intro b c hbc
      rw [List.foldl_cons, List.filter_cons]
      by_cases hv : f v < f c
      · rw [if_pos (by simpa using hv)]
        rw [List.foldl_cons]
        have hstep : fmStep f (some b) v = if f v < f b then some v else some b := rfl
        by_cases h2 : f v < f b
        · rw [hstep, if_pos h2]
          exact ih v c (le_of_lt hv)
        · rw [hstep, if_neg h2]
          exact ih b c hbc
      · rw [if_neg (by simpa using hv)]
        have h2 : ¬ f v < f b := fun hlt => hv (lt_of_lt_of_le hlt hbc)
        have hstep : fmStep f (some b) v = some b := by
          show (if f v < f b then some v else some b) = some b
          rw [if_neg h2]
        rw [hstep]
        exact ih b c hbc

/-- Filtering twice by strict bounds on f collapses to the inner bound when
the bounds are nested. -/
theorem filter_lt_collapse (f : Word → ℚ) (q : Word → Bool) (t : List Word) (dv dbd : ℚ)
    (hlt : dv < dbd) :
    ((t.filter fun u => q u && decide (f u < dbd)).filter fun u => decide (f u < dv)) =
      t.filter fun u => q u && decide (f u < dv) := by
  rw [List.filter_filter]
  congr 1
  funext u
  by_cases h : f u < dv
  · have h2 : f u < dbd := lt_trans h hlt
    simp [h, h2]
  · simp [h]

/-- Filtering by a strict bound already satisfied by every member is the
identity. -/
theorem filter_lt_self (f : Word → ℚ) (q : Word → Bool) (t : List Word) (dv : ℚ) :
    ((t.filter fun u => q u && decide (f u < dv)).filter fun u => decide (f u < dv)) =
      t.filter fun u => q u && decide (f u < dv) := by
  rw [List.filter_filter]
  congr 1
  funext u
  by_cases h : f u < dv
  · simp [h]
  · simp [h]

/-- A first-min scan started at b equals the scan of the part strictly
better than b, with b returned when that part selects nothing. -/
theorem fmStep_foldl_split (f : Word → ℚ) :
    ∀ (n : Nat) (l : List Word), l.length ≤ n → ∀ b : Word,
      l.foldl (fmStep f) (some b) =
        match (l.filter fun v => decide (f v < f b)).foldl (fmStep f) none with
        | none => some b
        | some m => some m := by
  intro n
  induction n with
  | zero =>
      intro l hl b
      have : l = [] := List.eq_nil_of_length_eq_zero (Nat.le_zero.mp hl)
      subst this
      rfl
  | succ n ih =>
      intro l hl b
      rcases l with _ | ⟨v, t⟩
      · rfl
      · have hlt : t.length ≤ n := by
          simp only [List.length_cons] at hl
          omega
        rw [List.foldl_cons, List.filter_cons]
        by_cases hv : f v < f b
        · have hstep : fmStep f (some b) v = some v := by
            show (if f v < f b then some v else some b) = some v
            rw [if_pos hv]
          rw [hstep, if_pos (by simpa using hv), List.foldl_cons]
          have hstep0 : fmStep f none v = some v := rfl
          rw [hstep0]
          have hright : (t.filter fun u => decide (f u < f b)).foldl (fmStep f) (some v) =
              (t.filter fun u => decide (f u < f v)).foldl (fmStep f) (some v) := by
            rw [fmStep_foldl_filter f _ v v (le_refl (f v))]
            congr 1
            rw [List.filter_filter]
            congr 1
            funext u
            by_cases h : f u < f v
            · have h2 : f u < f b := lt_trans h hv
              simp [h, h2]
            · simp [h]
          rw [hright]
          have hleft := ih t hlt v
          rw [hleft]
          have hidem : ((t.filter fun u => decide (f u < f v)).filter
              fun u => decide (f u < f v)) = t.filter fun u => decide (f u < f v) := by
            rw [List.filter_filter]
            congr 1
            funext u
            by_cases h : f u < f v <;> simp [h]
          have hinner := ih (t.filter fun u => decide (f u < f v))
            (le_trans (List.length_filter_le _ _) hlt) v
          rw [hinner, hidem]
          cases hX : (t.filter fun u => decide (f u < f v)).foldl (fmStep f) none with
          | none => rfl
          | some m => rfl
        · have hstep : fmStep f (some b) v = some b := by
            show (if f v < f b then some v else some b) = some b
            rw [if_neg hv]
          rw [hstep, if_neg (by simpa using hv)]
          exact ih t hlt b

/-- A qualifying word is closer than the loop's initial bound 1e12. -/
theorem wdist_lt_initial (allowed : List String) (cx cy : ℚ) (w : Word)
    (h : qualifies allowed cx cy w = true) : wdist cx cy w < 10 ^ 12 := by
  simp only [qualifies, Bool.and_eq_true, decide_eq_true_eq] at h
  obtain ⟨-, hy, hx⟩ := h
  obtain ⟨hy1, hy2⟩ := abs_lt.mp hy
  obtain ⟨hx1, hx2⟩ := abs_lt.mp hx
  unfold wdist
  nlinarith [mul_pos (by linarith : (0:ℚ) < 260 - ((w.x0 + w.x1) / 2 - cx))
      (by linarith : (0:ℚ) < 260 + ((w.x0 + w.x1) / 2 - cx)),
    mul_pos (by linarith : (0:ℚ) < 260 - ((w.y0 + w.y1) / 2 - cy))
      (by linarith : (0:ℚ) < 260 + ((w.y0 + w.y1) / 2 - cy))]

/-- The source loop of nearest_color_label computes the first-seen minimum
of the qualifying words within the current best distance. -/
theorem nclLoop_eq_firstMin (allowed : List String) (cx cy : ℚ) :
    ∀ (ws : List Word) (bt : Option String) (bd : ℚ),
      nclLoop allowed cx cy ws bt bd =
        match firstMin (wdist cx cy)
            (ws.filter fun w => qualifies allowed cx cy w && decide (wdist cx cy w < bd)) with
        | none => bt
        | some m => some (pyStrip m.txt) := by
  intro ws
  induction ws with
  | nil => intro bt bd; rfl
  | cons w t ih =>
      intro bt bd
      show (if norm (some (pyStrip w.txt)) ∈ allowed then
          if |(w.y0 + w.y1) / 2 - cy| < 260 ∧ |(w.x0 + w.x1) / 2 - cx| < 260 then
            if wdist cx cy w < bd then
              nclLoop allowed cx cy t (some (pyStrip w.txt)) (wdist cx cy w)
            else nclLoop allowed cx cy t bt bd
          else nclLoop allowed cx cy t bt bd
        else nclLoop allowed cx cy t bt bd) = _
      by_cases hmem : norm (some (pyStrip w.txt)) ∈ allowed
      · rw [if_pos hmem]
        by_cases hprox : |(w.y0 + w.y1) / 2 - cy| < 260 ∧ |(w.x0 + w.x1) / 2 - cx| < 260
        · rw [if_pos hprox]
          have hqual : qualifies allowed cx cy w = true := by
            simp [qualifies, hmem, hprox.1, hprox.2]
          by_cases hd : wdist cx cy w < bd
          · rw [if_pos hd, ih]
            have hqT : (qualifies allowed cx cy w && decide (wdist cx cy w < bd)) = true := by
              simp [hqual, hd]
            rw [List.filter_cons, if_pos (by simpa using hqT)]
            unfold firstMin
            rw [List.foldl_cons]
            have hstep0 : fmStep (wdist cx cy) none w = some w := rfl
            rw [hstep0]
            have h1 : ((t.filter fun u => qualifies allowed cx cy u &&
                  decide (wdist cx cy u < bd))).foldl (fmStep (wdist cx cy)) (some w) =
                (t.filter fun u => qualifies allowed cx cy u &&
                  decide (wdist cx cy u < wdist cx cy w)).foldl (fmStep (wdist cx cy)) (some w) := by
              rw [fmStep_foldl_filter (wdist cx cy) _ w w (le_refl _)]
              rw [filter_lt_collapse (wdist cx cy) _ t _ _ hd]
            rw [h1]
            rw [fmStep_foldl_split (wdist cx cy)
              (t.filter fun u => qualifies allowed cx cy u &&
                decide (wdist cx cy u < wdist cx cy w)).length _ (le_refl _) w]
            rw [filter_lt_self]
            cases hX : (t.filter fun u => qualifies allowed cx cy u &&
                decide (wdist cx cy u < wdist cx cy w)).foldl (fmStep (wdist cx cy)) none with
            | none => rfl
            | some m => rfl
          · rw [if_neg hd, ih]
            have hqF : (qualifies allowed cx cy w && decide (wdist cx cy w < bd)) = false := by
              simp [hd]
            rw [List.filter_cons, if_neg (by simp [hqF])]
        · rw [if_neg hprox]
          rw [ih]
          have hqF : qualifies allowed cx cy w = false := by
            rcases Decidable.not_and_iff_or_not.mp hprox with h | h <;>
              simp [qualifies, h]
          rw [List.filter_cons, if_neg (by simp [hqF])]
      · rw [if_neg hmem]
        rw [ih]
        have hqF : qualifies allowed cx cy w = false := by
          simp [qualifies, hmem]
        rw [List.filter_cons, if_neg (by simp [hqF])]

/-- C3 (amended): nearest_color_label equals its argmin description: among
the words whose normalized stripped text lies in the allowed vocabulary —
the series' colors when a nonempty list is provided, else the global color
set — and whose two center offsets are each under 260, it returns the
stripped original-case text of the first-seen closest word (squared
Euclidean center distance), and none when no word qualifies. -/
theorem C3_nearest_color_label :
    ∀ (words : List Word) (rect : Rect) (allowed_colors : Option (List String)),
      nearest_color_label words rect allowed_colors = specNearest words rect allowed_colors := by
  intro words rect ac
  unfold nearest_color_label specNearest
  rcases words with _ | ⟨w, t⟩
  · rfl
  · rw [if_neg (by simp)]
    rw [nclLoop_eq_firstMin]
    have hfeq : ((w :: t).filter fun u =>
          qualifies (resolveAllowed ac) (rect.x0 + rect.width / 2) (rect.y0 + rect.height / 2) u &&
            decide (wdist (rect.x0 + rect.width / 2) (rect.y0 + rect.height / 2) u < 10 ^ 12)) =
        (w :: t).filter
          (qualifies (resolveAllowed ac) (rect.x0 + rect.width / 2)
            (rect.y0 + rect.height / 2)) := by
      congr 1
      funext u
      by_cases hq : qualifies (resolveAllowed ac) (rect.x0 + rect.width / 2)
          (rect.y0 + rect.height / 2) u = true
      · have hlt := wdist_lt_initial _ _ _ _ hq
        simp [hq, hlt]
      · simp only [Bool.not_eq_true] at hq
        simp [hq]
    rw [hfeq]
    cases hX : firstMin (wdist (rect.x0 + rect.width / 2) (rect.y0 + rect.height / 2))
        ((w :: t).filter
          (qualifies (resolveAllowed ac) (rect.x0 + rect.width / 2)
            (rect.y0 + rect.height / 2))) with
    | none => simp [hX]
    | some m => simp [hX]

/-- C3 counterexample to the claim as stated: with a provided but empty
allowed-color list the code falls back to the global vocabulary (Python
truthiness) and still returns a label, where the claim's reading (vocabulary
= the provided list) would return none. -/
theorem C3_counterexample :
    nearest_color_label [Word.mk 0 0 10 10 "Charcoal"] (Rect.mk 0 0 10 10) (some []) =
      some "Charcoal" ∧
    (∀ s : String, s ∉ ([] : List String)) := by
  constructor
  · simp [nearest_color_label, nclLoop, resolveAllowed, ALL_COLOR_LOWER, SERIES_COLORS,
      pyStrip, pyStripChars, isPyWS, pyLower, norm, subWS, squeezeSp, Rect.width, Rect.height]
  · simp

/-! ## C4: the output-path decision -/

/-- Every name in the taxonomy is nonempty. -/
theorem series_names_ne_nil : ∀ s ∈ SERIES_NAMES, s ≠ "" := by decide

/-- When the vocabulary does not contain the empty string, the loop never
produces it (each accepted text normalizes into the vocabulary). -/
theorem nclLoop_ne_nil (allowed : List String) (cx cy : ℚ) (hA : "" ∉ allowed) :
    ∀ (ws : List Word) (bt : Option String) (bd : ℚ) (c : String),
      (bt = none ∨ ∃ c0, bt = some c0 ∧ c0 ≠ "") →
      nclLoop allowed cx cy ws bt bd = some c → c ≠ "" := by
  intro ws
  induction ws with
  | nil =>
      intro bt bd c hbt h
      rcases hbt with rfl | ⟨c0, rfl, hc0⟩
      · exact absurd h (by simp [nclLoop])
      · have : c0 = c := Option.some.inj h
        exact this ▸ hc0
  | cons w t ih =>
      intro bt bd c hbt h
      revert h
      show (if norm (some (pyStrip w.txt)) ∈ allowed then
          if |(w.y0 + w.y1) / 2 - cy| < 260 ∧ |(w.x0 + w.x1) / 2 - cx| < 260 then
            if wdist cx cy w < bd then
              nclLoop allowed cx cy t (some (pyStrip w.txt)) (wdist cx cy w)
            else nclLoop allowed cx cy t bt bd
          else nclLoop allowed cx cy t bt bd
        else nclLoop allowed cx cy t bt bd) = some c → c ≠ ""
      by_cases hmem : norm (some (pyStrip w.txt)) ∈ allowed
      · rw [if_pos hmem]
        by_cases hprox : |(w.y0 + w.y1) / 2 - cy| < 260 ∧ |(w.x0 + w.x1) / 2 - cx| < 260
        · rw [if_pos hprox]
          by_cases hd : wdist cx cy w < bd
          · rw [if_pos hd]
            intro h
            refine ih _ _ c (Or.inr ⟨pyStrip w.txt, rfl, ?_⟩) h
            intro hnil
            rw [hnil] at hmem
            exact hA hmem
          · rw [if_neg hd]
            exact ih bt bd c hbt
        · rw [if_neg hprox]
          exact ih bt bd c hbt
      · rw [if_neg hmem]
        exact ih bt bd c hbt

/-- nearest_color_label never returns the empty string when its resolved
vocabulary avoids it. -/
theorem nearest_ne_nil (words : List Word) (rect : Rect) (ac : Option (List String))
    (c : String) (hA : "" ∉ resolveAllowed ac)
    (h : nearest_color_label words rect ac = some c) : c ≠ "" := by
  unfold nearest_color_label at h
  by_cases he : words.isEmpty = true
  · rw [if_pos he] at h
    exact absurd h (by simp)
  · rw [if_neg he] at h
    exact nclLoop_ne_nil _ _ _ hA _ none _ c (Or.inl rfl) h

/-- Under a taxonomy series hint, the resolved vocabulary never holds the
empty string. -/
theorem empty_not_in_vocab (seriesHint : Option String)
    (hser : ∀ sh, seriesHint = some sh → sh ∈ SERIES_NAMES) :
    "" ∉ resolveAllowed (pyAllowed seriesHint) := by
  rcases seriesHint with _ | s
  · decide
  · have hs : s ∈ SERIES_NAMES := hser s rfl
    simp only [SERIES_NAMES, SERIES_COLORS, List.map, List.mem_cons,
      List.not_mem_nil, or_false] at hs
    rcases hs with rfl | rfl | rfl | rfl | rfl | rfl | rfl | rfl | rfl | rfl | rfl | rfl <;>
      decide

/-- C4: for a placement that passes the geometry filter, the write goes to
swatches/<series>/<color>.png exactly when the page has a detected series
and a color label was located; in every other case (series missing, color
missing or both) it goes to swatches_raw/page<NN>_xref<ref>_w<W>_h<H>.png
with the zero-padded two-digit page index, the object reference id and the
decoded pixel dimensions; no partial-credit path exists. -/
theorem C4_path_decision :
    ∀ (pidx xid : Nat) (pix : Pix) (seriesHint : Option String) (words : List Word)
      (rect : Rect) (evs : List Event) (s r : Nat),
      is_square_swatch pix.width pix.height = true →
      (∀ sh, seriesHint = some sh → sh ∈ SERIES_NAMES) →
      (processRect pidx xid pix seriesHint words (evs, s, r) rect =
        match seriesHint, nearest_color_label words rect (pyAllowed seriesHint) with
        | some sh, some c =>
            (evs ++ [Event.mkdir ("swatches/" ++ sh),
              Event.save (OutPath.confident sh c) (save_pixmap pix)], s + 1, r)
        | _, _ =>
            (evs ++ [Event.save (OutPath.fallback pidx xid pix.width pix.height)
              (save_pixmap pix)], s, r + 1)) ∧
      (∀ sh c : String, (OutPath.confident sh c).render =
        "swatches/" ++ sh ++ "/" ++ c ++ ".png") ∧
      (OutPath.fallback pidx xid pix.width pix.height).render =
        "swatches_raw/page" ++ pad2 pidx ++ "_xref" ++ Nat.repr xid ++
          "_w" ++ Nat.repr pix.width ++ "_h" ++ Nat.repr pix.height ++ ".png" := by
  intro pidx xid pix seriesHint words rect evs s r hsq hser
  refine ⟨?_, fun sh c => rfl, rfl⟩
  unfold processRect
  rw [if_pos hsq]
  rcases hsh : seriesHint with _ | sh
  · rfl
  · rcases hcg : nearest_color_label words rect (pyAllowed (some sh)) with _ | c
    · simp [hcg]
    · have hshne : sh ≠ "" := series_names_ne_nil sh (hser sh hsh)
      have hcne : c ≠ "" :=
        nearest_ne_nil words rect (pyAllowed (some sh)) c
          (by
            apply empty_not_in_vocab (some sh)
            intro sh2 hsh2
            exact Option.some.inj hsh2 ▸ hser sh hsh)
          hcg
      simp only [hcg]
      rw [if_neg (by simp [hshne, hcne])]

/-- C4 witness: a 200x200 3-channel image on page 3 (object 9) with series
hint Woodland and the word "Cedarwood Abbey" beside it is written to
swatches/Woodland/Cedarwood Abbey.png, and the render equations produce the
documented strings. -/
theorem C4_path_decision_witness :
    (processRect 3 9 (Pix.mk 200 200 3 false) (some "Woodland")
        [Word.mk 0 0 10 10 "Cedarwood Abbey"] ([], 0, 0) (Rect.mk 0 0 10 10) =
      match (some "Woodland" : Option String),
          nearest_color_label [Word.mk 0 0 10 10 "Cedarwood Abbey"] (Rect.mk 0 0 10 10)
            (pyAllowed (some "Woodland")) with
      | some sh, some c =>
          (([] : List Event) ++ [Event.mkdir ("swatches/" ++ sh),
            Event.save (OutPath.confident sh c) (save_pixmap (Pix.mk 200 200 3 false))],
            0 + 1, 0)
      | _, _ =>
          (([] : List Event) ++ [Event.save (OutPath.fallback 3 9 200 200)
            (save_pixmap (Pix.mk 200 200 3 false))], 0, 0 + 1)) ∧
    (∀ sh c : String, (OutPath.confident sh c).render =
      "swatches/" ++ sh ++ "/" ++ c ++ ".png") ∧
    (OutPath.fallback 3 9 200 200).render =
      "swatches_raw/page" ++ pad2 3 ++ "_xref" ++ Nat.repr 9 ++
        "_w" ++ Nat.repr 200 ++ "_h" ++ Nat.repr 200 ++ ".png" :=
  C4_path_decision 3 9 (Pix.mk 200 200 3 false) (some "Woodland")
    [Word.mk 0 0 10 10 "Cedarwood Abbey"] (Rect.mk 0 0 10 10) [] 0 0
    (by norm_num [is_square_swatch])
    (by
      intro sh h
      injection h with h2
      subst h2
      decide)

/-! ## C9 counterexample: one object on two pages decodes twice -/

/-- C9 counterexample to the claim as stated: a single image object placed
on two pages is decoded once per page — two decode events in the run's
trace, not one. -/
theorem C9_counterexample :
    run (Doc.mk [PageData.mk "" [], PageData.mk "" []]
      [XrefObj.mk 7 (some "/Image") (some (Pix.mk 10 10 3 false))
        [[Rect.mk 0 0 1 1], [Rect.mk 0 0 1 1]]]) =
    ([Event.mkdir "swatches", Event.mkdir "swatches_raw",
      Event.decode 7 true, Event.decode 7 true], 0, 0) := by
  decide

/-! ## Sanity instantiations of the embedding -/

theorem sanity_norm_collapses : norm (some "  Pewter   Gray ") = "pewter gray" := by decide

theorem sanity_substring : strIn "grand sequoia" "xx grand sequoia as yy" = true := by decide

theorem sanity_sorted_series : sortKeyDesc String.length SERIES_NAMES =
    ["Timberline HDZ RS","Timberline AS II","Grand Sequoia AS","Grand Sequoia RS",
     "Timberline UHDZ","Royal Sovereign","Timberline HDZ","Timberline NS",
     "Grand Sequoia","Camelot II","Slateline","Woodland"] := by decide

theorem sanity_detect_hit :
    detect_series "Our Grand Sequoia AS shingles" = some "Grand Sequoia AS" := by decide

theorem sanity_detect_miss : detect_series "nothing here" = none := by decide

/-- Every detected series is one of the taxonomy's names (so the series
hint fed to the path decision always satisfies C4's hypothesis). -/
theorem detect_series_mem (text : String) (s : String)
    (h : detect_series text = some s) : s ∈ SERIES_NAMES := by
  have hperm : List.Perm (sortKeyDesc String.length SERIES_NAMES) SERIES_NAMES := by decide
  have h2 : (sortKeyDesc String.length SERIES_NAMES).find?
      (fun series => strIn (norm (some series)) (norm (some text))) = some s := h
  have hm : s ∈ sortKeyDesc String.length SERIES_NAMES := List.mem_of_find?_eq_some h2
  exact hperm.mem_iff.mp hm

theorem sanity_geometry_boundary : is_square_swatch 187 220 = true := by
  simp [is_square_swatch]
  norm_num

theorem sanity_geometry_small : is_square_swatch 179 220 = false := by
  simp [is_square_swatch]

theorem sanity_locator_labels :
    nearest_color_label [Word.mk 0 0 10 10 "Charcoal"] (Rect.mk 0 0 10 10) none =
      some "Charcoal" := by
  simp [nearest_color_label, nclLoop, resolveAllowed, ALL_COLOR_LOWER, SERIES_COLORS,
    pyStrip, pyStripChars, isPyWS, pyLower, norm, subWS, squeezeSp, Rect.width, Rect.height]

theorem sanity_locator_far_word_ignored :
    nearest_color_label [Word.mk 500 500 520 520 "Charcoal"] (Rect.mk 0 0 10 10) none =
      none := by
  simp [nearest_color_label, nclLoop, resolveAllowed, ALL_COLOR_LOWER, SERIES_COLORS,
    pyStrip, pyStripChars, isPyWS, pyLower, norm, subWS, squeezeSp, Rect.width, Rect.height]
  norm_num

end PopulateSwatches
